import Mathlib

/-!
Verification of the distributed tool-execution hub (conversation loop,
session store, HTTP front, and the WebSocket hub) against its
natural-language specification.

The Python sources are shallowly embedded: dictionaries become
association lists with string keys (insertion order preserved, as in
Python), sets become duplicate-free lists with insert-if-absent, and the
stateful methods become pure functions from state to state.
-/

/-! ## Association lists and set-like lists (Python `dict` / `set`) -/

/-- `d.get(k)` / `d[k]` on a Python dict modelled as an association list:
first binding for the key wins (association lists built by `alSet` have
at most one binding per key, like a dict). -/
def alGet {β : Type} : List (String × β) → String → Option β
  | [], _ => none
  | (k', v) :: rest, k => if k' = k then some v else alGet rest k

/-- `d[k] = v` on a Python dict: replace the binding in place when the key
exists (dicts keep insertion order), otherwise append a new binding. -/
def alSet {β : Type} : List (String × β) → String → β → List (String × β)
  | [], k, v => [(k, v)]
  | (k', v') :: rest, k, v =>
      if k' = k then (k, v) :: rest else (k', v') :: alSet rest k v

/-- `d.pop(k, None)` / `del d[k]` on a Python dict: drop every binding for
the key (at most one exists in a well-formed dict). -/
def alErase {β : Type} (l : List (String × β)) (k : String) : List (String × β) :=
  l.filter (fun p => decide (p.1 ≠ k))

/-- `s.add(x)` on a Python set modelled as a duplicate-free list. -/
def setAdd (l : List String) (x : String) : List String :=
  if x ∈ l then l else l ++ [x]

/-- `s.discard(x)` / `del d[k]` on a Python set of strings. -/
def setDiscard (l : List String) (x : String) : List String :=
  l.filter (fun y => decide (y ≠ x))

theorem alGet_alSet_self {β : Type} (l : List (String × β)) (k : String) (v : β) :
    alGet (alSet l k v) k = some v := by
  induction l with
  | nil => simp [alSet, alGet]
  | cons p rest ih =>
      by_cases h : p.1 = k
      · simp [alSet, alGet, h]
      · simp [alSet, alGet, h, ih]

theorem alSet_of_not_mem_keys {β : Type} (l : List (String × β)) (k : String) (v : β)
    (h : k ∉ l.map Prod.fst) : alSet l k v = l ++ [(k, v)] := by
  induction l with
  | nil => simp [alSet]
  | cons p rest ih =>
      simp only [List.map_cons, List.mem_cons] at h
      push_neg at h
      have hp : ¬ p.1 = k := fun hh => h.1 hh.symm
      simp [alSet, hp, ih h.2]

theorem mem_alErase {β : Type} (l : List (String × β)) (k : String) (p : String × β) :
    p ∈ alErase l k ↔ p ∈ l ∧ p.1 ≠ k := by
  simp [alErase, List.mem_filter]

theorem alGet_eq_some_mem {β : Type} (l : List (String × β)) (k : String) (v : β)
    (h : alGet l k = some v) : (k, v) ∈ l := by
  induction l with
  | nil => simp [alGet] at h
  | cons p rest ih =>
      obtain ⟨a, b⟩ := p
      by_cases hk : a = k
      · subst hk
        simp [alGet] at h
        subst h
        exact List.mem_cons_self _ _
      · simp only [alGet, if_neg hk] at h
        exact List.mem_cons_of_mem _ (ih h)

theorem alGet_eq_none_iff {β : Type} (l : List (String × β)) (k : String) :
    alGet l k = none ↔ ∀ v, (k, v) ∉ l := by
  induction l with
  | nil => simp [alGet]
  | cons p rest ih =>
      obtain ⟨a, b⟩ := p
      by_cases hk : a = k
      · subst hk
        simp only [alGet, if_pos rfl]
        constructor
        · intro h
          simp at h
        · intro h
          exact absurd (List.mem_cons_self _ _) (h b)
      · simp only [alGet, if_neg hk, ih]
        constructor
        · intro h v hv
          rcases List.mem_cons.1 hv with h1 | h1
          · injection h1 with h2 h3
            exact absurd h2.symm hk
          · exact h v h1
        · intro h v hv
          exact h v (List.mem_cons_of_mem _ hv)

theorem mem_values_of_alGet_ne_key {β : Type} (l : List (String × β)) (k : String)
    (p : String × β) (hp : p ∈ l) (hne : p.1 ≠ k) : p ∈ alErase l k :=
  (mem_alErase l k p).2 ⟨hp, hne⟩

/-- In a dict with duplicate-free keys, lookup of any member binding
returns that binding's value. -/
theorem alGet_of_mem_of_nodup {β : Type} (l : List (String × β)) (k : String) (v : β)
    (hnd : (l.map Prod.fst).Nodup) (hm : (k, v) ∈ l) : alGet l k = some v := by
  induction l with
  | nil => simp at hm
  | cons p rest ih =>
      simp only [List.map_cons, List.nodup_cons] at hnd
      rcases List.mem_cons.1 hm with h1 | h1
      · cases h1
        simp [alGet]
      · have hk : p.1 ≠ k := by
          intro hk
          exact hnd.1 (hk ▸ (List.mem_map.2 ⟨(k, v), h1, rfl⟩))
        simp [alGet, hk, ih hnd.2 h1]

theorem mem_setAdd (l : List String) (x a : String) :
    a ∈ setAdd l x ↔ a ∈ l ∨ a = x := by
  by_cases h : x ∈ l
  · simp only [setAdd, if_pos h]
    constructor
    · exact Or.inl
    · rintro (h1 | rfl) <;> assumption
  · simp [setAdd, if_neg h]

theorem mem_setDiscard (l : List String) (x a : String) :
    a ∈ setDiscard l x ↔ a ∈ l ∧ a ≠ x := by
  simp [setDiscard, List.mem_filter]

/-! ## Conversation data model (conversation.py)

Provider content blocks and transcript messages, per §3 of the spec and
`conversation.py`.  A tool's `input` object is modelled as a list of
key/value pairs; its contents are opaque to everything we verify. -/

abbrev ToolInput := List (String × String)

/-- Provider content block (`block.type ∈ {"text", "tool_use"}`). -/
inductive ContentBlock where
  | text (text : String)
  | toolUse (id : String) (name : String) (input : ToolInput)
deriving DecidableEq, Repr

/-- A `{"type": "tool_result", "tool_use_id": …, "content": …}` dict. -/
structure ToolResultBlock where
  tool_use_id : String
  content : String
deriving DecidableEq, Repr

/-- A message's `content` field: a plain string (user input), assistant
content blocks, or a list of tool_result dicts. -/
inductive MessageContent where
  | ofString (s : String)
  | ofBlocks (blocks : List ContentBlock)
  | ofResults (results : List ToolResultBlock)
deriving DecidableEq, Repr

structure ChatMessage where
  role : String
  content : MessageContent
deriving DecidableEq, Repr

/-- Handlers registered on a conversation: `tool_handlers` maps a tool
name to a callable.  Every Python outcome (handler return value,
JSON-encoded non-string result, or caught exception text) is a string,
so a handler is modelled as `ToolInput → String`. -/
abbrev ToolHandlers := List (String × (ToolInput → String))

/-- The per-block result computation of `Conversation._handle_tool_use`:
a missing handler yields the literal error string, otherwise the handler
runs on the block's input. -/
def runToolBlock (handlers : ToolHandlers) (name : String) (input : ToolInput) : String :=
  match alGet handlers name with
  | none => "Error: no handler registered for tool '" ++ name ++ "'"
  | some f => f input

/-- `Conversation._handle_tool_use(response)` (conversation.py lines
62-85): walk the response blocks in order, skip non-`tool_use` blocks,
build one tool_result per `tool_use` block carrying that block's `id`,
and append a single user message when at least one result was built. -/
def handle_tool_use (handlers : ToolHandlers) (respContent : List ContentBlock)
    (messages : List ChatMessage) : List ChatMessage :=
  let toolResults := respContent.filterMap (fun b =>
    match b with
    | .toolUse id name input => some ⟨id, runToolBlock handlers name input⟩
    | .text _ => none)
  if toolResults.isEmpty then messages
  else messages ++ [⟨"user", .ofResults toolResults⟩]

/-- The ids of the `tool_use` blocks of a response, in response order. -/
def toolUseIds (respContent : List ContentBlock) : List String :=
  respContent.filterMap (fun b =>
    match b with
    | .toolUse id _ _ => some id
    | .text _ => none)

theorem handle_tool_use_results_ids (handlers : ToolHandlers)
    (respContent : List ContentBlock) :
    (respContent.filterMap (fun b =>
      match b with
      | .toolUse id name input => some (⟨id, runToolBlock handlers name input⟩ : ToolResultBlock)
      | .text _ => none)).map ToolResultBlock.tool_use_id = toolUseIds respContent := by
  induction respContent with
  | nil => simp [toolUseIds]
  | cons b rest ih =>
      cases b <;> simp [toolUseIds, List.filterMap_cons] <;>
        simpa [toolUseIds] using ih

/-- C8: when the response has tool_use blocks `[b₁…bₙ]`, `_handle_tool_use`
appends exactly one user message whose content is
`[tool_result(b₁.id), …, tool_result(bₙ.id)]` in response order. -/
theorem C8_tool_results_order (handlers : ToolHandlers)
    (respContent : List ContentBlock) (messages : List ChatMessage)
    (hne : toolUseIds respContent ≠ []) :
    ∃ results : List ToolResultBlock,
      handle_tool_use handlers respContent messages
        = messages ++ [⟨"user", .ofResults results⟩] ∧
      results.map ToolResultBlock.tool_use_id = toolUseIds respContent := by
  refine ⟨respContent.filterMap (fun b =>
    match b with
    | .toolUse id name input => some ⟨id, runToolBlock handlers name input⟩
    | .text _ => none), ?_, handle_tool_use_results_ids handlers respContent⟩
  rw [handle_tool_use]
  have hmap := handle_tool_use_results_ids handlers respContent
  have : ¬ (respContent.filterMap (fun b =>
      match b with
      | .toolUse id name input => some (⟨id, runToolBlock handlers name input⟩ : ToolResultBlock)
      | .text _ => none)).isEmpty := by
    intro h
    rw [List.isEmpty_iff] at h
    rw [h] at hmap
    exact hne hmap.symm
  simp [this]

/-- Witness for C8 at a concrete two-tool response. -/
theorem C8_tool_results_order_witness :
    ∃ results : List ToolResultBlock,
      handle_tool_use [] [.toolUse "u1" "echo" [("text", "hi")], .text "mid",
          .toolUse "u2" "echo" []] []
        = [] ++ [⟨"user", .ofResults results⟩] ∧
      results.map ToolResultBlock.tool_use_id
        = toolUseIds [.toolUse "u1" "echo" [("text", "hi")], .text "mid",
            .toolUse "u2" "echo" []] :=
  C8_tool_results_order [] _ [] (by decide)

/-- C10: a response with no tool_use blocks leaves the transcript
entirely unchanged — no empty tool_result message is appended. -/
theorem C10_no_tool_use_no_append (handlers : ToolHandlers)
    (respContent : List ContentBlock) (messages : List ChatMessage)
    (hnone : toolUseIds respContent = []) :
    handle_tool_use handlers respContent messages = messages := by
  rw [handle_tool_use]
  have hmap := handle_tool_use_results_ids handlers respContent
  rw [hnone] at hmap
  have : (respContent.filterMap (fun b =>
      match b with
      | .toolUse id name input => some (⟨id, runToolBlock handlers name input⟩ : ToolResultBlock)
      | .text _ => none)).isEmpty := by
    rw [List.isEmpty_iff]
    exact List.map_eq_nil_iff.1 hmap
  simp only [this, if_true]

/-- Witness for C10 at a concrete text-only response. -/
theorem C10_no_tool_use_no_append_witness :
    handle_tool_use [] [.text "hello"] [⟨"user", .ofString "hi"⟩]
      = [⟨"user", .ofString "hi"⟩] :=
  C10_no_tool_use_no_append [] _ _ (by decide)

/-! ## Session store (sessions.py)

A session lives in one JSON file under the store directory.  The
directory is modelled as a map from file path to file state; a file is
either a complete session record or truncated/partial (`none`), which is
what a crash between opening a file for writing and finishing the write
leaves behind. -/

/-- The on-disk session record (sessions.py `create` fixes this shape). -/
structure SessionRecord where
  session_id : String
  name : String
  model : String
  system : Option String
  max_tokens : Nat
  created_at : String
  messages : List ChatMessage
deriving DecidableEq, Repr

/-- `SessionStore.MAX_MESSAGES` (sessions.py line 12). -/
def MAX_MESSAGES : Nat := 1000

/-- `SessionStore._path(session_id)`: `os.path.join(self._dir, f"{id}.json")`. -/
def sessionPath (dir session_id : String) : String :=
  dir ++ "/" ++ session_id ++ ".json"

/-- The file-system operations a store method performs, in order. -/
inductive FsOp where
  | openRead (path : String)
  | openWriteTruncate (path : String)
  | write (path : String) (record : SessionRecord)
  | rename (src : String) (dst : String)
deriving DecidableEq, Repr

def FsOp.isRename : FsOp → Bool
  | .rename _ _ => true
  | _ => false

/-- The path an operation touches for writing (`none` for reads). -/
def FsOp.writesPath : FsOp → Option String
  | .openRead _ => none
  | .openWriteTruncate p => some p
  | .write p _ => some p
  | .rename _ dst => some dst

/-- A directory: path ↦ file state, `some none` = truncated/partial file,
`some (some r)` = complete record `r`, absent = no file. -/
abbrev FileSystem := List (String × Option SessionRecord)

def applyFsOp (fs : FileSystem) : FsOp → FileSystem
  | .openRead _ => fs
  | .openWriteTruncate p => alSet fs p none
  | .write p r => alSet fs p (some r)
  | .rename src dst =>
      match alGet fs src with
      | some c => alSet (alErase fs src) dst c
      | none => fs

def applyFsOps (fs : FileSystem) (ops : List FsOp) : FileSystem :=
  ops.foldl applyFsOp fs

/-- Name auto-derivation inside `SessionStore.save` (lines 75-79): the
first user message whose content is a plain string gives the name, first
30 characters, stripped. -/
def deriveName (msgs : List ChatMessage) : Option String :=
  msgs.findSome? (fun m =>
    match m with
    | ⟨"user", .ofString s⟩ => some ((s.take 30).trim)
    | _ => none)

/-- `SessionStore.save(session_id, conv)` (sessions.py lines 69-81): the
record transformation and the exact sequence of file operations.  The
code re-reads the session file, replaces `messages` with the (already
structured) conversation messages, truncates to the last `MAX_MESSAGES`,
derives `name` while it still starts with `"Agent-"`, then opens the
*same* path with mode `"w"` (truncating it) and writes the new JSON.
`_serialize_messages` only converts assistant block objects to their
dict form, which is the identity in this structured model. -/
def SessionStore.save (dir session_id : String) (old : SessionRecord)
    (convMessages : List ChatMessage) : SessionRecord × List FsOp :=
  let msgs0 := convMessages
  let msgs := if msgs0.length > MAX_MESSAGES then msgs0.drop (msgs0.length - MAX_MESSAGES)
              else msgs0
  let name := if old.name.startsWith "Agent-" ∧ ¬ msgs.isEmpty then
                (deriveName msgs).getD old.name
              else old.name
  let data := { old with messages := msgs, name := name }
  (data, [FsOp.openRead (sessionPath dir session_id),
          FsOp.openWriteTruncate (sessionPath dir session_id),
          FsOp.write (sessionPath dir session_id) data])

/-- Formalisation of the SPEC'S claim (§3: "Written atomically
(write-to-temp + rename) per save"): every write lands on a path other
than the session file, and the trace renames such a temporary path over
the session file. -/
def isAtomicWriteTrace (trace : List FsOp) (finalPath : String) : Prop :=
  (∀ op ∈ trace, ∀ p, op.writesPath = some p → p ≠ finalPath) ∧
  (∃ tmp, tmp ≠ finalPath ∧ FsOp.rename tmp finalPath ∈ trace)

/-- A concrete one-message record for the counterexamples. -/
def exampleRecord : SessionRecord :=
  { session_id := "s1", name := "Agent-ab12", model := "claude-sonnet-4-20250514",
    system := none, max_tokens := 8192, created_at := "2025-01-01T00:00:00+00:00",
    messages := [⟨"user", .ofString "hello"⟩] }

/-- C3 counterexample: `save` is not write-to-temp + rename — it truncates
and rewrites the session file in place, and a crash between the truncating
open and the write leaves a truncated file, not the previous record. -/
theorem C3_save_not_atomic_counterexample :
    ¬ isAtomicWriteTrace
        (SessionStore.save "sessions" "s1" exampleRecord
          [⟨"user", .ofString "hello"⟩, ⟨"assistant", .ofBlocks [.text "hi"]⟩]).2
        (sessionPath "sessions" "s1") ∧
    (SessionStore.save "sessions" "s1" exampleRecord
        [⟨"user", .ofString "hello"⟩, ⟨"assistant", .ofBlocks [.text "hi"]⟩]).2.all
        (fun op => ¬ op.isRename) = true ∧
    alGet (applyFsOps [(sessionPath "sessions" "s1", some exampleRecord)]
        ((SessionStore.save "sessions" "s1" exampleRecord
          [⟨"user", .ofString "hello"⟩, ⟨"assistant", .ofBlocks [.text "hi"]⟩]).2.take 2))
        (sessionPath "sessions" "s1") = some none := by
  refine ⟨?_, by decide, by decide⟩
  intro h
  have := h.1 (FsOp.openWriteTruncate (sessionPath "sessions" "s1")) (by decide)
      (sessionPath "sessions" "s1") rfl
  exact this rfl

/-- C3 amended: `save` rewrites the session file in place.  Its trace is
exactly read, truncating open, write on the session path (no rename, no
temporary file); a completed save leaves the new record, while a crash
after the truncating open but before the write completes leaves a
truncated file — the previous record is lost, not preserved. -/
theorem C3_save_overwrites_in_place (dir session_id : String) (old : SessionRecord)
    (convMessages : List ChatMessage) (fs : FileSystem) :
    (SessionStore.save dir session_id old convMessages).2
      = [FsOp.openRead (sessionPath dir session_id),
         FsOp.openWriteTruncate (sessionPath dir session_id),
         FsOp.write (sessionPath dir session_id)
           (SessionStore.save dir session_id old convMessages).1] ∧
    (∀ op ∈ (SessionStore.save dir session_id old convMessages).2,
        op.isRename = false) ∧
    alGet (applyFsOps fs (SessionStore.save dir session_id old convMessages).2)
        (sessionPath dir session_id)
      = some (some (SessionStore.save dir session_id old convMessages).1) ∧
    alGet (applyFsOps fs ((SessionStore.save dir session_id old convMessages).2.take 2))
        (sessionPath dir session_id)
      = some none := by
  refine ⟨rfl, ?_, ?_, ?_⟩
  · intro op hop
    simp only [SessionStore.save, List.mem_cons, List.not_mem_nil, or_false] at hop
    rcases hop with rfl | rfl | rfl <;> rfl
  · show alGet (applyFsOps fs [_, _, _]) _ = _
    simp only [applyFsOps, List.foldl, applyFsOp]
    exact alGet_alSet_self _ _ _
  · show alGet (applyFsOps fs [_, _]) _ = _
    simp only [applyFsOps, List.foldl, applyFsOp]
    exact alGet_alSet_self _ _ _

/-- Witness for the amended C3 on a concrete store state. -/
theorem C3_save_overwrites_in_place_witness :
    alGet (applyFsOps [(sessionPath "sessions" "s1", some exampleRecord)]
        ((SessionStore.save "sessions" "s1" exampleRecord
          [⟨"user", .ofString "hello"⟩]).2.take 2))
        (sessionPath "sessions" "s1") = some none :=
  (C3_save_overwrites_in_place "sessions" "s1" exampleRecord
      [⟨"user", .ofString "hello"⟩]
      [(sessionPath "sessions" "s1", some exampleRecord)]).2.2.2

/-! ### The missing `clear_history` (C1)

sessions.py defines the class `SessionStore` with exactly the methods
below — there is no `clear_history` (nor `clear_all_history`), yet
server.py line 204 calls `s.clear_history(session_id)`.  Python resolves
`s.clear_history` by attribute lookup on the class, so the call raises
`AttributeError`, which aiohttp turns into an HTTP 500 response. -/

/-- The attributes the class body of `SessionStore` defines
(sessions.py lines 29-115, in source order). -/
def sessionStoreMethods : List String :=
  ["__init__", "_path", "create", "load", "save", "get", "list_all",
   "delete", "delete_all", "exists"]

/-- The sessions directory: session id ↦ on-disk record. -/
abbrev Store := List (String × SessionRecord)

/-- `SessionStore.exists(session_id)`: the session file exists. -/
def sessionExists (store : Store) (session_id : String) : Bool :=
  (alGet store session_id).isSome

/-- `getattr(store, name)` succeeds iff the class defines the attribute. -/
def storeHasAttr (name : String) : Bool :=
  sessionStoreMethods.contains name

/-- `clear_session_history` (server.py lines 199-205): 404 when the
session does not exist; otherwise the handler calls
`s.clear_history(session_id)` — an attribute lookup that fails because
`SessionStore` defines no such method — so the handler raises
`AttributeError` and aiohttp answers 500 instead of the documented 204.
The result is the store state after the request and the HTTP status. -/
def clear_session_history (store : Store) (session_id : String) : Store × Nat :=
  if ¬ sessionExists store session_id then (store, 404)
  else if storeHasAttr "clear_history" then
    -- would run the method and return 204; unreachable, no such method
    (store, 204)
  else (store, 500)

/-- C1 fails on the code: for an existing session, POST
/sessions/{id}/clear raises `AttributeError` (HTTP 500, not 204) because
`SessionStore` has no `clear_history` method, and the session's messages
are left untouched rather than cleared. -/
theorem C1_clear_history_missing :
    storeHasAttr "clear_history" = false ∧
    clear_session_history [("s1", exampleRecord)] "s1"
      = ([("s1", exampleRecord)], 500) ∧
    (alGet (clear_session_history [("s1", exampleRecord)] "s1").1 "s1").map
        SessionRecord.messages ≠ some [] := by
  refine ⟨rfl, rfl, ?_⟩
  decide

/-! ## HTTP front (server.py): /healthz and /prompt (C2) -/

/-- `healthz` (server.py lines 34-38): 200 `"ok"` when at least one
worker is connected, else 503. -/
def healthz (worker_count : Nat) : Nat :=
  if worker_count > 0 then 200 else 503

/-- Outcome of `prompt_handler`: the HTTP status and whether the
conversation was run (`conv.run_until_done` reached). -/
structure PromptOutcome where
  status : Nat
  ran_conversation : Bool
deriving DecidableEq, Repr

/-- `prompt_handler` (server.py lines 41-57): a missing/empty `prompt`
field gives 400; otherwise the handler builds a conversation, registers
the hub tools on it, runs it to completion and answers 200.  The hub's
`worker_count` is never consulted. -/
def prompt_handler (worker_count : Nat) (prompt : String) : PromptOutcome :=
  if prompt = "" then ⟨400, false⟩
  else ⟨200, true⟩

/-- C2 fails on the code: with zero workers connected and a non-empty
prompt, POST /prompt does not answer 503 — it runs the conversation and
answers 200. -/
theorem C2_prompt_no_503_counterexample :
    prompt_handler 0 "say hi" = ⟨200, true⟩ ∧
    (prompt_handler 0 "say hi").status ≠ 503 ∧
    (prompt_handler 0 "say hi").ran_conversation = true := by
  exact ⟨rfl, by decide, rfl⟩

/-- C2 amended: `prompt_handler` never consults `worker_count` (its
response is the same whatever the worker count); it answers 400 exactly
on an empty prompt and otherwise runs the conversation with status 200 —
it never answers 503.  Only GET /healthz reports 503 when
`worker_count == 0`. -/
theorem C2_prompt_ignores_worker_count (worker_count : Nat) (prompt : String) :
    prompt_handler worker_count prompt = prompt_handler 0 prompt ∧
    (prompt = "" → prompt_handler worker_count prompt = ⟨400, false⟩) ∧
    (prompt ≠ "" → prompt_handler worker_count prompt = ⟨200, true⟩) ∧
    (prompt_handler worker_count prompt).status ≠ 503 ∧
    healthz worker_count = (if worker_count > 0 then 200 else 503) := by
  refine ⟨rfl, ?_, ?_, ?_, rfl⟩
  · intro h
    simp [prompt_handler, h]
  · intro h
    simp [prompt_handler, h]
  · by_cases h : prompt = "" <;> simp [prompt_handler, h]

/-- Witness for the amended C2 at worker_count 0. -/
theorem C2_prompt_ignores_worker_count_witness :
    prompt_handler 0 "say hi" = ⟨200, true⟩ ∧ healthz 0 = 503 :=
  ⟨(C2_prompt_ignores_worker_count 0 "say hi").2.2.1 (by decide),
   (C2_prompt_ignores_worker_count 0 "say hi").2.2.2.2⟩

/-! ## Hub (hub.py)

The hub's mutable state.  Futures are not modelled beyond the set of
outstanding call ids (`pending`); the bootstrap conversation's tool
registry is mirrored as the list of its registered tool names. -/

abbrev WorkerId := String
abbrev CallId := String
abbrev ToolName := String
abbrev SessionId := String

/-- A worker `register` frame carries a list of tool schemas; everything
but the `name` field is opaque to the hub. -/
structure ToolSchema where
  name : ToolName
deriving DecidableEq, Repr

structure Hub where
  /-- keys of `_worker_senders` (the connected workers). -/
  workerSenders : List WorkerId
  /-- `_tool_to_workers`. -/
  toolToWorkers : List (ToolName × List WorkerId)
  /-- `_tool_rr_index`. -/
  toolRRIndex : List (ToolName × Nat)
  /-- `_session_affinity`. -/
  sessionAffinity : List (SessionId × WorkerId)
  /-- keys of `_pending`. -/
  pending : List CallId
  /-- `_busy_workers`. -/
  busyWorkers : List WorkerId
  /-- `_call_to_worker`. -/
  callToWorker : List (CallId × WorkerId)
  /-- `_worker_count` (a plain Python int; `_cleanup_worker` decrements
  unconditionally, so it can in principle go negative). -/
  workerCount : Int
  /-- names of `_tool_schemas`. -/
  toolSchemas : List ToolSchema
  /-- tool names registered on the hub's bootstrap conversation. -/
  convTools : List ToolName
deriving Repr

/-- The hub state right after `Hub.__init__`. -/
def initialHub : Hub :=
  { workerSenders := [], toolToWorkers := [], toolRRIndex := [],
    sessionAffinity := [], pending := [], busyWorkers := [],
    callToWorker := [], workerCount := 0, toolSchemas := [], convTools := [] }

/-- The session-affinity fast path of `_pick_worker` (hub.py lines
189-192): with a session id whose bound worker is still listed for the
tool and still connected, return that worker.  (`if affinity_wid:` —
worker ids are never the empty string, because the handshake substitutes
a fresh uuid for a missing or falsy `worker_id`; the check is kept.) -/
def sessionAffinityPick (h : Hub) (session_id : Option SessionId)
    (workers : List WorkerId) : Option WorkerId :=
  match session_id with
  | none => none
  | some sid =>
      match alGet h.sessionAffinity sid with
      | none => none
      | some w =>
          if w ≠ "" ∧ w ∈ workers ∧ w ∈ h.workerSenders then some w else none

/-- `Hub._pick_worker(tool_name, session_id)` (hub.py lines 184-205).
Returns the updated hub and the chosen worker (`None` = no worker). -/
def _pick_worker (h : Hub) (tool_name : ToolName) (session_id : Option SessionId) :
    Hub × Option WorkerId :=
  match alGet h.toolToWorkers tool_name with
  | none => (h, none)          -- `if not workers: return None`
  | some workers =>
      if workers.isEmpty then (h, none)
      else
        match sessionAffinityPick h session_id workers with
        | some w => (h, some w)
        | none =>
            let alive := workers.filter (fun w => decide (w ∈ h.workerSenders))
            if alive.isEmpty then (h, none)
            else
              let idx := (alGet h.toolRRIndex tool_name).getD 0 % alive.length
              let chosen := alive.getD idx ""
              let h1 := { h with toolRRIndex := alSet h.toolRRIndex tool_name (idx + 1) }
              let h2 := match session_id with
                        | some sid =>
                            { h1 with sessionAffinity := alSet h1.sessionAffinity sid chosen }
                        | none => h1
              (h2, some chosen)

/-- The synchronous bookkeeping of `Hub._dispatch` before the send
(hub.py lines 216-220): record the pending future, the call-to-worker
binding, and mark the worker busy. -/
def dispatchRecord (h : Hub) (call_id : CallId) (worker_id : WorkerId) : Hub :=
  { h with pending := setAdd h.pending call_id,
           callToWorker := alSet h.callToWorker call_id worker_id,
           busyWorkers := setAdd h.busyWorkers worker_id }

/-- `asyncio.wait_for(fut, timeout=120)` — the dispatch deadline in
seconds (hub.py line 230). -/
def dispatchTimeoutSeconds : Nat := 120

/-- The `except asyncio.TimeoutError` arm of `Hub._dispatch` (hub.py
lines 231-236): drop the pending future and the call binding, un-busy
the worker unless it still has another outstanding call, and return the
timeout error string (the literal `"… timed out after 120s"`). -/
def dispatchTimeoutCleanup (h : Hub) (call_id : CallId) (worker_id : WorkerId)
    (tool_name : ToolName) : Hub × String :=
  let h1 := { h with pending := setDiscard h.pending call_id,
                     callToWorker := alErase h.callToWorker call_id }
  let h2 := if h1.callToWorker.any (fun p => decide (p.2 = worker_id)) then h1
            else { h1 with busyWorkers := setDiscard h1.busyWorkers worker_id }
  (h2, "Error: tool '" ++ tool_name ++ "' timed out after 120s")

/-- The `tool_result` arm of `Hub._process_message` (hub.py lines
130-137): pop the call binding; when the finishing worker (a truthy id)
has no other outstanding call, drop it from `busy_workers`; pop and
fulfil the pending future. -/
def processToolResult (h : Hub) (call_id : CallId) : Hub :=
  let finished := alGet h.callToWorker call_id
  let ctw := alErase h.callToWorker call_id
  let busy := match finished with
    | some w =>
        if w ≠ "" ∧ ¬ ctw.any (fun p => decide (p.2 = w)) then
          setDiscard h.busyWorkers w
        else h.busyWorkers
    | none => h.busyWorkers
  { h with callToWorker := ctw, busyWorkers := busy,
           pending := setDiscard h.pending call_id }

/-- `Hub._register_tools(worker_id, tool_schemas)` (hub.py lines
168-182): for each schema in order, append the worker to the tool's pool
if absent; for a globally new tool name, record the schema, initialise
its round-robin index to 0 and register a remote handler on the
bootstrap conversation. -/
def registerOneTool (h : Hub) (worker_id : WorkerId) (schema : ToolSchema) : Hub :=
  let name := schema.name
  let workers := (alGet h.toolToWorkers name).getD []
  let workers1 := if worker_id ∈ workers then workers else workers ++ [worker_id]
  let h1 := { h with toolToWorkers := alSet h.toolToWorkers name workers1 }
  if h1.toolSchemas.any (fun s => decide (s.name = name)) then h1
  else { h1 with toolSchemas := h1.toolSchemas ++ [schema],
                 toolRRIndex := alSet h1.toolRRIndex name 0,
                 convTools := h1.convTools ++ [name] }

def _register_tools (h : Hub) (worker_id : WorkerId) (tool_schemas : List ToolSchema) :
    Hub :=
  tool_schemas.foldl (fun h schema => registerOneTool h worker_id schema) h

/-- A worker → hub frame, already JSON-decoded.  Frames whose `type` is
neither `register` nor `tool_result` fall through both branches of
`_process_message` and are ignored. -/
inductive WorkerFrame where
  | register (tools : List ToolSchema)
  | toolResult (call_id : CallId) (content : String)
  | other
deriving Repr

/-- `Hub._process_message(worker_id, raw)` (hub.py lines 120-137).  A
`register` frame registers the tools and increments `_worker_count`
unconditionally — nothing limits `register` to once per connection. -/
def _process_message (h : Hub) (worker_id : WorkerId) (msg : WorkerFrame) : Hub :=
  match msg with
  | .register tools =>
      let h1 := _register_tools h worker_id tools
      { h1 with workerCount := h1.workerCount + 1 }
  | .toolResult call_id _content => processToolResult h call_id
  | .other => h

/-- `Hub._cleanup_worker(worker_id)` (hub.py lines 139-166): drop the
sender; remove the worker from every tool pool and fully retire tools
whose pool empties; clear affinities bound to the worker; un-busy it;
drop its call bindings (their pending futures are left to time out);
decrement `_worker_count` unconditionally. -/
def _cleanup_worker (h : Hub) (worker_id : WorkerId) : Hub :=
  let removed := h.toolToWorkers.map (fun p => (p.1, p.2.erase worker_id))
  let empty_tools := (h.toolToWorkers.filter (fun p =>
      decide (worker_id ∈ p.2) && (p.2.erase worker_id).isEmpty)).map Prod.fst
  { workerSenders := setDiscard h.workerSenders worker_id,
    toolToWorkers := removed.filter (fun p => decide (p.1 ∉ empty_tools)),
    toolRRIndex := h.toolRRIndex.filter (fun p => decide (p.1 ∉ empty_tools)),
    sessionAffinity := h.sessionAffinity.filter (fun p => decide (p.2 ≠ worker_id)),
    pending := h.pending,
    busyWorkers := setDiscard h.busyWorkers worker_id,
    callToWorker := h.callToWorker.filter (fun p => decide (p.2 ≠ worker_id)),
    workerCount := h.workerCount - 1,
    toolSchemas := h.toolSchemas.filter (fun s => decide (s.name ∉ empty_tools)),
    convTools := h.convTools.filter (fun n => decide (n ∉ empty_tools)) }

/-! ### C4 — round-robin pick and counter update -/

/-- A hub with one tool `t` served by three connected workers and a
round-robin counter already at 5 (e.g. after membership changes). -/
def hubRR5 : Hub :=
  { initialHub with
      workerSenders := ["w1", "w2", "w3"],
      toolToWorkers := [("t", ["w1", "w2", "w3"])],
      toolRRIndex := [("t", 5)],
      toolSchemas := [⟨"t"⟩], convTools := ["t"], workerCount := 3 }

/-- C4 fails on the code: with counter 5 and 3 alive workers, the pick
chooses `alive[5 mod 3] = w3` but stores counter `(5 mod 3) + 1 = 3`,
not `5 + 1 = 6` — the stored counter is not "previous plus one". -/
theorem C4_rr_increment_counterexample :
    (_pick_worker hubRR5 "t" none).2 = some "w3" ∧
    alGet (_pick_worker hubRR5 "t" none).1.toolRRIndex "t" = some 3 ∧
    alGet (_pick_worker hubRR5 "t" none).1.toolRRIndex "t" ≠ some (5 + 1) := by
  refine ⟨rfl, rfl, ?_⟩
  decide

/-- C4 amended: when the affinity fast path does not apply and the alive
subset is non-empty, the chosen worker is `alive[old mod len(alive)]`
and the stored counter becomes `(old mod len(alive)) + 1` — which equals
`old + 1` exactly when `old < len(alive)`. -/
theorem C4_rr_pick_and_counter (h : Hub) (tool_name : ToolName)
    (session_id : Option SessionId) (workers : List WorkerId)
    (hA : alGet h.toolToWorkers tool_name = some workers)
    (hfp : sessionAffinityPick h session_id workers = none)
    (halive : workers.filter (fun w => decide (w ∈ h.workerSenders)) ≠ []) :
    (_pick_worker h tool_name session_id).2
      = some ((workers.filter (fun w => decide (w ∈ h.workerSenders))).getD
          (((alGet h.toolRRIndex tool_name).getD 0) %
            (workers.filter (fun w => decide (w ∈ h.workerSenders))).length) "") ∧
    alGet (_pick_worker h tool_name session_id).1.toolRRIndex tool_name
      = some ((((alGet h.toolRRIndex tool_name).getD 0) %
          (workers.filter (fun w => decide (w ∈ h.workerSenders))).length) + 1) := by
  have hwne : ¬ workers.isEmpty := by
    intro hw
    rw [List.isEmpty_iff] at hw
    subst hw
    simp at halive
  have halive' : ¬ (workers.filter (fun w => decide (w ∈ h.workerSenders))).isEmpty := by
    rw [List.isEmpty_iff]
    exact halive
  rw [_pick_worker, hA]
  simp only [hwne, if_false, hfp, halive', Bool.false_eq_true]
  cases session_id <;>
    simp [alGet_alSet_self]

/-- Witness for the amended C4: counter 1 over two alive workers picks
`w2` and stores 2. -/
theorem C4_rr_pick_and_counter_witness :
    (_pick_worker { initialHub with
        workerSenders := ["w1", "w2"],
        toolToWorkers := [("t", ["w1", "w2"])],
        toolRRIndex := [("t", 1)] } "t" none).2 = some "w2" ∧
    alGet (_pick_worker { initialHub with
        workerSenders := ["w1", "w2"],
        toolToWorkers := [("t", ["w1", "w2"])],
        toolRRIndex := [("t", 1)] } "t" none).1.toolRRIndex "t" = some 2 := by
  have := C4_rr_pick_and_counter { initialHub with
      workerSenders := ["w1", "w2"],
      toolToWorkers := [("t", ["w1", "w2"])],
      toolRRIndex := [("t", 1)] } "t" none ["w1", "w2"] rfl rfl (by decide)
  exact ⟨by rw [this.1]; rfl, by rw [this.2]; rfl⟩

/-! ### C7 — dispatch timeout cleanup -/

/-- C7: the dispatch deadline is 120 s, and on expiry the hub removes
`pending[call_id]` and `call_to_worker[call_id]`, un-busies the worker
exactly when it has no other outstanding call, and returns the literal
timeout error string. -/
theorem C7_dispatch_timeout (h : Hub) (call_id : CallId) (worker_id : WorkerId)
    (tool_name : ToolName) :
    dispatchTimeoutSeconds = 120 ∧
    (dispatchTimeoutCleanup h call_id worker_id tool_name).2
      = "Error: tool '" ++ tool_name ++ "' timed out after 120s" ∧
    call_id ∉ (dispatchTimeoutCleanup h call_id worker_id tool_name).1.pending ∧
    (∀ v, (call_id, v) ∉ (dispatchTimeoutCleanup h call_id worker_id tool_name).1.callToWorker) ∧
    ((¬ ∃ c, (c, worker_id) ∈
        (dispatchTimeoutCleanup h call_id worker_id tool_name).1.callToWorker) →
      worker_id ∉ (dispatchTimeoutCleanup h call_id worker_id tool_name).1.busyWorkers) ∧
    ((∃ c, (c, worker_id) ∈
        (dispatchTimeoutCleanup h call_id worker_id tool_name).1.callToWorker) →
      (dispatchTimeoutCleanup h call_id worker_id tool_name).1.busyWorkers
        = h.busyWorkers) := by
  have hctw : (dispatchTimeoutCleanup h call_id worker_id tool_name).1.callToWorker
      = alErase h.callToWorker call_id := by
    rw [dispatchTimeoutCleanup]
    by_cases hb : (alErase h.callToWorker call_id).any (fun p => decide (p.2 = worker_id)) <;>
      simp [hb]
  refine ⟨rfl, rfl, ?_, ?_, ?_, ?_⟩
  · have hpend : (dispatchTimeoutCleanup h call_id worker_id tool_name).1.pending
        = setDiscard h.pending call_id := by
      rw [dispatchTimeoutCleanup]
      by_cases hb : (alErase h.callToWorker call_id).any (fun p => decide (p.2 = worker_id)) <;>
        simp [hb]
    rw [hpend]
    intro hmem
    exact ((mem_setDiscard _ _ _).1 hmem).2 rfl
  · intro v hmem
    rw [hctw] at hmem
    exact ((mem_alErase _ _ _).1 hmem).2 rfl
  · intro hnone
    rw [hctw] at hnone
    have hany : ¬ (alErase h.callToWorker call_id).any (fun p => decide (p.2 = worker_id)) := by
      intro hany
      rcases List.any_eq_true.1 hany with ⟨p, hp, hpw⟩
      exact hnone ⟨p.1, by
        have : p.2 = worker_id := of_decide_eq_true hpw
        rw [← this]
        exact hp⟩
    rw [dispatchTimeoutCleanup]
    simp only [hany, Bool.false_eq_true, if_false]
    intro hmem
    exact ((mem_setDiscard _ _ _).1 hmem).2 rfl
  · intro hex
    rw [hctw] at hex
    rcases hex with ⟨c, hc⟩
    have hany : (alErase h.callToWorker call_id).any (fun p => decide (p.2 = worker_id)) := by
      exact List.any_eq_true.2 ⟨(c, worker_id), hc, by simp⟩
    rw [dispatchTimeoutCleanup]
    simp [hany]

/-- Witness for C7 on a hub with one outstanding call. -/
theorem C7_dispatch_timeout_witness :
    "c1" ∉ (dispatchTimeoutCleanup { initialHub with
        pending := ["c1"], callToWorker := [("c1", "w1")],
        busyWorkers := ["w1"] } "c1" "w1" "echo").1.pending ∧
    "w1" ∉ (dispatchTimeoutCleanup { initialHub with
        pending := ["c1"], callToWorker := [("c1", "w1")],
        busyWorkers := ["w1"] } "c1" "w1" "echo").1.busyWorkers := by
  have := C7_dispatch_timeout { initialHub with
      pending := ["c1"], callToWorker := [("c1", "w1")],
      busyWorkers := ["w1"] } "c1" "w1" "echo"
  exact ⟨this.2.2.1, this.2.2.2.2.1 (by
    rintro ⟨c, hc⟩
    simp [dispatchTimeoutCleanup, alErase, setDiscard] at hc)⟩

/-! ### C9 — worker_count accounting -/

/-- A hub-side event on worker connections: a connection is accepted and
its sender stored (`_handle_worker` line 81), a frame is processed, or
the connection closes and `_cleanup_worker` runs. -/
inductive HubEvent where
  | connect (worker_id : WorkerId)
  | frame (worker_id : WorkerId) (msg : WorkerFrame)
  | disconnect (worker_id : WorkerId)
deriving Repr

def applyHubEvent (h : Hub) : HubEvent → Hub
  | .connect worker_id => { h with workerSenders := setAdd h.workerSenders worker_id }
  | .frame worker_id msg => _process_message h worker_id msg
  | .disconnect worker_id => _cleanup_worker h worker_id

def applyHubEvents (h : Hub) (evs : List HubEvent) : Hub :=
  evs.foldl applyHubEvent h

/-- Is the event a processed `register` frame? -/
def HubEvent.isRegisterFrame : HubEvent → Bool
  | .frame _ (.register _) => true
  | _ => false

def HubEvent.isDisconnect : HubEvent → Bool
  | .disconnect _ => true
  | _ => false

theorem workerCount_registerOneTool (h : Hub) (w : WorkerId) (s : ToolSchema) :
    (registerOneTool h w s).workerCount = h.workerCount := by
  rw [registerOneTool, apply_ite Hub.workerCount]
  simp

theorem workerCount_register (h : Hub) (w : WorkerId) (tools : List ToolSchema) :
    (_process_message h w (.register tools)).workerCount = h.workerCount + 1 := by
  show ((_register_tools h w tools).workerCount + 1) = h.workerCount + 1
  congr 1
  induction tools generalizing h with
  | nil => rfl
  | cons s rest ih =>
      show (_register_tools (registerOneTool h w s) w rest).workerCount = h.workerCount
      rw [ih, workerCount_registerOneTool]

/-- C9: `worker_count` counts processed `register` frames minus cleanups
— there is no once-per-connection guard — so after one connection sends
`register` twice, the count is 2 while only one worker is connected. -/
theorem C9_worker_count_accounting :
    (∀ (h : Hub) (evs : List HubEvent),
      (applyHubEvents h evs).workerCount
        = h.workerCount + (evs.countP HubEvent.isRegisterFrame : Int)
            - (evs.countP HubEvent.isDisconnect : Int)) ∧
    (applyHubEvents initialHub
        [.connect "w", .frame "w" (.register [⟨"echo"⟩]),
         .frame "w" (.register [⟨"echo"⟩])]).workerCount = 2 ∧
    (applyHubEvents initialHub
        [.connect "w", .frame "w" (.register [⟨"echo"⟩]),
         .frame "w" (.register [⟨"echo"⟩])]).workerSenders = ["w"] := by
  refine ⟨?_, by decide, by decide⟩
  intro h evs
  induction evs generalizing h with
  | nil => simp [applyHubEvents]
  | cons e rest ih =>
      have hstep : (applyHubEvents h (e :: rest))
          = applyHubEvents (applyHubEvent h e) rest := rfl
      rw [hstep, ih]
      have hcount : (applyHubEvent h e).workerCount
          = h.workerCount + (if e.isRegisterFrame then 1 else 0)
              - (if e.isDisconnect then 1 else 0) := by
        cases e with
        | connect w => simp [applyHubEvent, HubEvent.isRegisterFrame, HubEvent.isDisconnect]
        | disconnect w =>
            simp [applyHubEvent, _cleanup_worker, HubEvent.isRegisterFrame,
              HubEvent.isDisconnect]
        | frame w msg =>
            cases msg with
            | register tools =>
                simp [applyHubEvent, workerCount_register h w tools,
                  HubEvent.isRegisterFrame, HubEvent.isDisconnect]
            | toolResult cid content =>
                simp [applyHubEvent, _process_message, processToolResult,
                  HubEvent.isRegisterFrame, HubEvent.isDisconnect]
            | other =>
                simp [applyHubEvent, _process_message,
                  HubEvent.isRegisterFrame, HubEvent.isDisconnect]
      rw [hcount]
      simp only [List.countP_cons]
      by_cases h1 : e.isRegisterFrame <;> by_cases h2 : e.isDisconnect <;>
        simp [h1, h2] <;> omega

/-! ### C6 — busy ⇔ outstanding-call invariant -/

/-- The invariant of §3/§8: a worker is busy iff it has at least one
entry in `call_to_worker`. -/
def HubBusyInv (h : Hub) : Prop :=
  ∀ w, w ∈ h.busyWorkers ↔ ∃ cid, (cid, w) ∈ h.callToWorker

/-- C6: the busy ⇔ outstanding-call equivalence holds initially and is
preserved by the dispatch bookkeeping (with a fresh call id), by
`tool_result` processing (call ids unique, worker ids truthy), by the
dispatch-timeout cleanup (the timed-out call, if still recorded, is
bound to the dispatching worker), and by worker-disconnect cleanup. -/
theorem C6_busy_inv_preserved (h : Hub) (hInv : HubBusyInv h)
    (hnd : (h.callToWorker.map Prod.fst).Nodup)
    (hne : ∀ p ∈ h.callToWorker, p.2 ≠ "") :
    HubBusyInv initialHub ∧
    (∀ call_id worker_id, call_id ∉ h.callToWorker.map Prod.fst →
      HubBusyInv (dispatchRecord h call_id worker_id)) ∧
    (∀ call_id, HubBusyInv (processToolResult h call_id)) ∧
    (∀ call_id worker_id tool_name,
      (∀ v, (call_id, v) ∈ h.callToWorker → v = worker_id) →
      HubBusyInv (dispatchTimeoutCleanup h call_id worker_id tool_name).1) ∧
    (∀ worker_id, HubBusyInv (_cleanup_worker h worker_id)) := by
  refine ⟨?_, ?_, ?_, ?_, ?_⟩
  · intro w
    simp [initialHub]
  · -- dispatch bookkeeping
    intro cid wid hfresh w
    show w ∈ setAdd h.busyWorkers wid ↔ ∃ c, (c, w) ∈ alSet h.callToWorker cid wid
    rw [alSet_of_not_mem_keys _ _ _ hfresh, mem_setAdd]
    constructor
    · rintro (hw | rfl)
      · rcases (hInv w).1 hw with ⟨c, hc⟩
        exact ⟨c, List.mem_append_left _ hc⟩
      · exact ⟨cid, List.mem_append_right _ (List.mem_singleton.2 rfl)⟩
    · rintro ⟨c, hc⟩
      rcases List.mem_append.1 hc with hc | hc
      · exact Or.inl ((hInv w).2 ⟨c, hc⟩)
      · right
        injection (List.mem_singleton.1 hc) with h1 h2
  · -- tool_result
    intro cid w
    show w ∈ _ ↔ ∃ c, (c, w) ∈ alErase h.callToWorker cid
    cases hget : alGet h.callToWorker cid with
    | none =>
        have hctw : alErase h.callToWorker cid = h.callToWorker := by
          apply List.filter_eq_self.2
          intro p hp
          rcases alGet_eq_none_iff h.callToWorker cid |>.1 hget p.2 with _
          refine decide_eq_true ?_
          intro hkey
          exact (alGet_eq_none_iff h.callToWorker cid |>.1 hget p.2)
            (by rw [← hkey]; exact hp)
        simp only [processToolResult, hget, hctw]
        exact hInv w
    | some v =>
        have hvne : v ≠ "" := hne _ (alGet_eq_some_mem _ _ _ hget)
        have hvmem : (cid, v) ∈ h.callToWorker := alGet_eq_some_mem _ _ _ hget
        simp only [processToolResult, hget]
        by_cases hany : (alErase h.callToWorker cid).any (fun p => decide (p.2 = v))
        · -- v still has another outstanding call: busy set unchanged
          have hcond : ¬ (v ≠ "" ∧ ¬ (alErase h.callToWorker cid).any
              (fun p => decide (p.2 = v))) := by
            rintro ⟨-, hno⟩
            exact hno hany
          simp only [hcond, if_false]
          constructor
          · intro hw
            rcases (hInv w).1 hw with ⟨c, hc⟩
            by_cases hkey : c = cid
            · subst hkey
              -- the removed binding was (cid, v); w = v keeps a call via hany
              have hwv : w = v := by
                have := alGet_of_mem_of_nodup h.callToWorker c w hnd hc
                rw [hget] at this
                injection this with h1
                exact h1.symm
              subst hwv
              rcases List.any_eq_true.1 hany with ⟨p, hp, hpw⟩
              exact ⟨p.1, by
                have hp2 : p.2 = w := of_decide_eq_true hpw
                rw [← hp2]
                exact hp⟩
            · exact ⟨c, (mem_alErase _ _ _).2 ⟨hc, hkey⟩⟩
          · rintro ⟨c, hc⟩
            exact (hInv w).2 ⟨c, ((mem_alErase _ _ _).1 hc).1⟩
        · -- v's last call finished: v removed from busy
          have hcond : (v ≠ "" ∧ ¬ (alErase h.callToWorker cid).any
              (fun p => decide (p.2 = v))) := ⟨hvne, hany⟩
          rw [if_pos hcond, mem_setDiscard]
          constructor
          · rintro ⟨hw, hwv⟩
            rcases (hInv w).1 hw with ⟨c, hc⟩
            refine ⟨c, (mem_alErase _ _ _).2 ⟨hc, ?_⟩⟩
            intro hkey
            subst hkey
            have := alGet_of_mem_of_nodup h.callToWorker c w hnd hc
            rw [hget] at this
            injection this with h1
            exact hwv h1.symm
          · rintro ⟨c, hc⟩
            rcases (mem_alErase _ _ _).1 hc with ⟨hcmem, hckey⟩
            refine ⟨(hInv w).2 ⟨c, hcmem⟩, ?_⟩
            intro hwv
            subst hwv
            exact hany (List.any_eq_true.2 ⟨(c, w), (mem_alErase _ _ _).2 ⟨hcmem, hckey⟩,
              by simp⟩)
  · -- dispatch timeout
    intro cid wid tool hbind w
    have hctw : (dispatchTimeoutCleanup h cid wid tool).1.callToWorker
        = alErase h.callToWorker cid := by
      rw [dispatchTimeoutCleanup]
      by_cases hb : (alErase h.callToWorker cid).any (fun p => decide (p.2 = wid)) <;>
        simp [hb]
    rw [HubBusyInv] at *
    rw [hctw]
    by_cases hany : (alErase h.callToWorker cid).any (fun p => decide (p.2 = wid))
    · have hbusy : (dispatchTimeoutCleanup h cid wid tool).1.busyWorkers
          = h.busyWorkers := by
        rw [dispatchTimeoutCleanup]
        simp [hany]
      rw [hbusy]
      constructor
      · intro hw
        rcases (hInv w).1 hw with ⟨c, hc⟩
        by_cases hkey : c = cid
        · subst hkey
          have hwv : w = wid := hbind w hc
          subst hwv
          rcases List.any_eq_true.1 hany with ⟨p, hp, hpw⟩
          exact ⟨p.1, by
            have hp2 : p.2 = w := of_decide_eq_true hpw
            rw [← hp2]
            exact hp⟩
        · exact ⟨c, (mem_alErase _ _ _).2 ⟨hc, hkey⟩⟩
      · rintro ⟨c, hc⟩
        exact (hInv w).2 ⟨c, ((mem_alErase _ _ _).1 hc).1⟩
    · have hbusy : (dispatchTimeoutCleanup h cid wid tool).1.busyWorkers
          = setDiscard h.busyWorkers wid := by
        rw [dispatchTimeoutCleanup]
        simp [hany]
      rw [hbusy, mem_setDiscard]
      constructor
      · rintro ⟨hw, hwv⟩
        rcases (hInv w).1 hw with ⟨c, hc⟩
        refine ⟨c, (mem_alErase _ _ _).2 ⟨hc, ?_⟩⟩
        intro hkey
        subst hkey
        exact hwv (hbind w hc)
      · rintro ⟨c, hc⟩
        rcases (mem_alErase _ _ _).1 hc with ⟨hcmem, hckey⟩
        refine ⟨(hInv w).2 ⟨c, hcmem⟩, ?_⟩
        intro hwv
        subst hwv
        exact hany (List.any_eq_true.2 ⟨(c, w), (mem_alErase _ _ _).2 ⟨hcmem, hckey⟩,
          by simp⟩)
  · -- worker disconnect cleanup
    intro wid w
    show w ∈ setDiscard h.busyWorkers wid ↔
      ∃ c, (c, w) ∈ h.callToWorker.filter (fun p => decide (p.2 ≠ wid))
    rw [mem_setDiscard]
    constructor
    · rintro ⟨hw, hwv⟩
      rcases (hInv w).1 hw with ⟨c, hc⟩
      exact ⟨c, List.mem_filter.2 ⟨hc, decide_eq_true hwv⟩⟩
    · rintro ⟨c, hc⟩
      rcases List.mem_filter.1 hc with ⟨hcmem, hcw⟩
      exact ⟨(hInv w).2 ⟨c, hcmem⟩, of_decide_eq_true hcw⟩

/-- Witness for C6 on a hub with one outstanding call. -/
theorem C6_busy_inv_preserved_witness :
    HubBusyInv (dispatchRecord { initialHub with
        pending := ["c1"], callToWorker := [("c1", "w1")], busyWorkers := ["w1"],
        workerSenders := ["w1", "w2"] } "c2" "w2") ∧
    HubBusyInv (processToolResult { initialHub with
        pending := ["c1"], callToWorker := [("c1", "w1")], busyWorkers := ["w1"],
        workerSenders := ["w1", "w2"] } "c1") := by
  have h6 := C6_busy_inv_preserved { initialHub with
      pending := ["c1"], callToWorker := [("c1", "w1")], busyWorkers := ["w1"],
      workerSenders := ["w1", "w2"] }
    (by
      intro w
      constructor
      · intro hw
        simp at hw
        exact ⟨"c1", by simp [hw]⟩
      · rintro ⟨c, hc⟩
        simp at hc
        simp [hc.2])
    (by simp)
    (by
      intro p hp
      simp at hp
      simp [hp])
  exact ⟨h6.2.1 "c2" "w2" (by simp), h6.2.2.1 "c1"⟩

/-! ### C5 — round-robin fairness over a fixed alive set

Arithmetic groundwork: how many `i < N` satisfy `(c + i) % k = j`. -/

theorem dvd_window_base (k m j : Nat) (hk : 0 < k) (hm : m < k) (hj : j < k) :
    k ∣ (m + k - j) ↔ m = j := by
  constructor
  · rintro ⟨q, hq⟩
    rcases q with _ | q
    · omega
    · rcases q with _ | q
      · omega
      · have h2 : k * 2 ≤ k * (q + 1 + 1) := Nat.mul_le_mul_left k (by omega)
        omega
  · rintro rfl
    exact ⟨1, by omega⟩

theorem dvd_window_iff_mod (k M j : Nat) (hk : 0 < k) (hj : j < k) :
    k ∣ (M + k - j) ↔ M % k = j := by
  have hsplit : M + k - j = k * (M / k) + (M % k + k - j) := by
    have hdm := Nat.div_add_mod M k
    omega
  rw [hsplit, Nat.dvd_add_right (dvd_mul_right k (M / k))]
  exact dvd_window_base k (M % k) j hk (Nat.mod_lt M hk) hj

theorem countP_range_mod (k j : Nat) (hk : 0 < k) (hj : j < k) (M : Nat) :
    (List.range M).countP (fun i => decide (i % k = j)) = (M + k - 1 - j) / k := by
  induction M with
  | zero =>
      simp only [List.range_zero, List.countP_nil]
      exact (Nat.div_eq_of_lt (by omega)).symm
  | succ M ih =>
      rw [List.range_succ, List.countP_append, ih]
      have hstep : M + 1 + k - 1 - j = (M + k - 1 - j) + 1 := by omega
      rw [hstep, Nat.succ_div]
      have hiff : (k ∣ (M + k - 1 - j) + 1) ↔ M % k = j := by
        have heq : (M + k - 1 - j) + 1 = M + k - j := by omega
        rw [heq]
        exact dvd_window_iff_mod k M j hk hj
      by_cases hmod : M % k = j <;>
        simp [hmod, hiff, List.countP_cons, List.countP_nil]

theorem countP_range_shift (k j c N : Nat) :
    (List.range (c + N)).countP (fun i => decide (i % k = j))
      = (List.range c).countP (fun i => decide (i % k = j))
        + (List.range N).countP (fun i => decide ((c + i) % k = j)) := by
  rw [List.range_add, List.countP_append, List.countP_map]
  rfl

/-- Of `N` consecutive values of `(c + i) % k`, each residue `j < k` is
hit either `⌊N/k⌋` or `⌈N/k⌉` times. -/
theorem countP_shift_floor_or_ceil (k j c N : Nat) (hk : 0 < k) (hj : j < k) :
    (List.range N).countP (fun i => decide ((c + i) % k = j)) = N / k ∨
    (List.range N).countP (fun i => decide ((c + i) % k = j)) = (N + k - 1) / k := by
  have hB := countP_range_shift k j c N
  rw [countP_range_mod k j hk hj (c + N), countP_range_mod k j hk hj c] at hB
  have haN : c + N + k - 1 - j = (c + k - 1 - j) + N := by omega
  rw [haN, Nat.add_div hk] at hB
  have hcnt : (List.range N).countP (fun i => decide ((c + i) % k = j))
      = N / k + if k ≤ (c + k - 1 - j) % k + N % k then 1 else 0 :=
    Nat.add_left_cancel (hB.symm.trans (Nat.add_assoc _ _ _))
  by_cases hcase : k ≤ (c + k - 1 - j) % k + N % k
  · right
    have hNmod : N % k ≠ 0 := by
      have hlt : (c + k - 1 - j) % k < k := Nat.mod_lt _ hk
      omega
    have hceil : (N + k - 1) / k = N / k + 1 := by
      have h1 : N + k - 1 = N + (k - 1) := by omega
      have h3 : (k - 1) % k = k - 1 := Nat.mod_eq_of_lt (by omega)
      rw [h1, Nat.add_div hk, Nat.div_eq_of_lt (by omega : k - 1 < k), h3,
        if_pos (by omega : k ≤ N % k + (k - 1))]
    rw [hcnt, if_pos hcase, hceil]
  · left
    rw [hcnt, if_neg hcase]
    exact Nat.add_zero _

/-- The sequence of `_pick_worker` results over `N` consecutive
dispatches for one tool with no session id, together with the final hub
state. -/
def pickSeq (h : Hub) (tool_name : ToolName) : Nat → Hub × List (Option WorkerId)
  | 0 => (h, [])
  | n + 1 =>
      let r := _pick_worker h tool_name none
      let rest := pickSeq r.1 tool_name n
      (rest.1, r.2 :: rest.2)

theorem pick_step (h : Hub) (t : ToolName) (A : List WorkerId) (c : Nat)
    (hA : alGet h.toolToWorkers t = some A) (hne : A ≠ [])
    (hsub : ∀ w ∈ A, w ∈ h.workerSenders)
    (hc : (alGet h.toolRRIndex t).getD 0 = c) :
    (_pick_worker h t none).2 = some (A.getD (c % A.length) "") ∧
    (_pick_worker h t none).1.toolToWorkers = h.toolToWorkers ∧
    (_pick_worker h t none).1.workerSenders = h.workerSenders ∧
    (alGet (_pick_worker h t none).1.toolRRIndex t).getD 0 = c % A.length + 1 := by
  have hfilter : A.filter (fun w => decide (w ∈ h.workerSenders)) = A :=
    List.filter_eq_self.2 (fun w hw => decide_eq_true (hsub w hw))
  have hAne : ¬ A.isEmpty := by
    rw [List.isEmpty_iff]
    exact hne
  have halive : ¬ (A.filter (fun w => decide (w ∈ h.workerSenders))).isEmpty := by
    rw [hfilter]
    exact hAne
  rw [_pick_worker, hA]
  simp only [hAne, Bool.false_eq_true, if_false, sessionAffinityPick, hfilter,
    halive, hc]
  simp [alGet_alSet_self]

theorem pickSeq_formula (t : ToolName) (A : List WorkerId) (hne : A ≠ [])
    (N : Nat) :
    ∀ (h : Hub) (c : Nat), alGet h.toolToWorkers t = some A →
      (∀ w ∈ A, w ∈ h.workerSenders) →
      (alGet h.toolRRIndex t).getD 0 = c →
      (pickSeq h t N).2 = (List.range N).map (fun i =>
        some (A.getD ((c + i) % A.length) "")) := by
  induction N with
  | zero =>
      intro h c _ _ _
      rfl
  | succ n ih =>
      intro h c hA hsub hc
      obtain ⟨hchosen, hTW, hWS, hRR⟩ := pick_step h t A c hA hne hsub hc
      show ((_pick_worker h t none).2 :: (pickSeq (_pick_worker h t none).1 t n).2) = _
      rw [hchosen, ih (_pick_worker h t none).1 (c % A.length + 1)
          (by rw [hTW]; exact hA)
          (by intro w hw; rw [hWS]; exact hsub w hw) hRR]
      rw [List.range_succ_eq_map, List.map_cons, List.map_map]
      congr 1
      apply List.map_congr_left
      intro i _
      simp only [Function.comp_apply, Option.some.injEq]
      congr 1
      rw [Nat.add_assoc, Nat.mod_add_mod, Nat.add_comm 1 i]

theorem getD_inj_of_nodup (A : List WorkerId) (hnd : A.Nodup) {i j : Nat}
    (hi : i < A.length) (hj : j < A.length) :
    A.getD i "" = A.getD j "" ↔ i = j := by
  constructor
  · intro hEq
    rw [List.getD_eq_getElem A "" hi, List.getD_eq_getElem A "" hj] at hEq
    have hget : A.get ⟨i, hi⟩ = A.get ⟨j, hj⟩ := by
      simpa using hEq
    have := List.nodup_iff_injective_get.1 hnd hget
    exact congrArg Fin.val this
  · rintro rfl
    rfl

/-- C5: over any `N` consecutive no-session dispatches for a fixed tool
whose alive worker list `A` (of size `k`, duplicate-free, all connected)
does not change, each worker of `A` is chosen either `⌊N/k⌋` or `⌈N/k⌉`
times, whatever the initial round-robin counter. -/
theorem C5_round_robin_fairness (h : Hub) (t : ToolName) (A : List WorkerId)
    (N j : Nat) (hA : alGet h.toolToWorkers t = some A) (hnd : A.Nodup)
    (hne : A ≠ []) (hsub : ∀ w ∈ A, w ∈ h.workerSenders) (hj : j < A.length) :
    (pickSeq h t N).2.count (some (A.getD j "")) = N / A.length ∨
    (pickSeq h t N).2.count (some (A.getD j "")) = (N + A.length - 1) / A.length := by
  have hk : 0 < A.length := List.length_pos.2 hne
  rw [pickSeq_formula t A hne N h ((alGet h.toolRRIndex t).getD 0) hA hsub rfl]
  rw [List.count_eq_countP, List.countP_map]
  have hfun : ((fun x => x == some (A.getD j "")) ∘ (fun i =>
      some (A.getD (((alGet h.toolRRIndex t).getD 0 + i) % A.length) "")))
      = fun i => decide ((((alGet h.toolRRIndex t).getD 0) + i) % A.length = j) := by
    funext i
    rw [Function.comp_apply, Bool.eq_iff_iff]
    simp only [beq_iff_eq, Option.some.injEq, decide_eq_true_eq]
    exact getD_inj_of_nodup A hnd (Nat.mod_lt _ hk) hj
  rw [hfun]
  exact countP_shift_floor_or_ceil A.length j _ N hk hj

/-- Witness for C5: two alive workers, five dispatches — `w1` is picked
3 = ⌈5/2⌉ times. -/
theorem C5_round_robin_fairness_witness :
    (pickSeq { initialHub with
        workerSenders := ["w1", "w2"],
        toolToWorkers := [("t", ["w1", "w2"])],
        toolRRIndex := [("t", 0)] } "t" 5).2.count
      (some ((["w1", "w2"] : List String).getD 0 "")) = 5 / 2 ∨
    (pickSeq { initialHub with
        workerSenders := ["w1", "w2"],
        toolToWorkers := [("t", ["w1", "w2"])],
        toolRRIndex := [("t", 0)] } "t" 5).2.count
      (some ((["w1", "w2"] : List String).getD 0 "")) = (5 + 2 - 1) / 2 :=
  C5_round_robin_fairness _ "t" ["w1", "w2"] 5 0 rfl (by decide) (by decide)
    (by decide) (by decide)
